import Mathlib

/-!
Verification of the StockRight putaway-ranking core.

The definitions below are a shallow embedding of the recommendation
algorithm of `src/app.py` (`is_valid_location`, `check_location_availability`
and the ranking portion of `get_recommendation`, lines 146-247), which is
also duplicated in `src/warehouse-putaway-system/warehouse_cli.py`
(`is_valid_location`, `generate_llm_explanation`, `recommend_putaway`).
Location codes are modelled as `List Char` (one Python string); usage
percentages as rationals; the live database is abstracted to the occupancy
oracle the code derives from it.  Python `list.sort` with key `-count` is a
stable sort, embedded as a stable insertion sort by `occurrenceCount`
descending.
-/

namespace StockRight

/-- Occupancy state of a warehouse location, as produced by
`check_location_availability` in src/app.py lines 89-93. -/
inductive OccupancyState where
  | FREE
  | OCCUPIED
  | UNKNOWN
deriving DecidableEq, Repr

/-- One historically-observed location for a part: an entry of
`qdrant_data["all_locations"]` in src/app.py (fields `code`, `count`,
`percentage`). -/
structure UsageRecord where
  locationCode : List Char
  occurrenceCount : Nat
  usagePercentage : ℚ
deriving DecidableEq, Repr

/-- The per-part aggregate retrieved from the document store
(`qdrant_data` in src/app.py: `total_putaways`, `primary_zone`,
`all_locations`). -/
structure PartHistory where
  totalPutaways : Nat
  primaryZone : Option (List Char)
  locations : List UsageRecord
deriving DecidableEq, Repr

/-- Embedding of Python `s.startswith(p)`: `beginsWith p s` is true when
`p` is an initial segment of `s`. -/
def beginsWith : List Char → List Char → Bool
  | [], _ => true
  | _ :: _, [] => false
  | p :: ps, c :: cs => p == c && beginsWith ps cs

/-- `is_valid_location` from src/app.py lines 80-87: a code is invalid when
it is empty, starts with `FLOOR`/`REC`/`ORD`, or (when it has at least two
characters, equivalently when its reversal starts with two characters) its
last two characters are both alphabetic and equal.  Matching on `s.reverse`
embeds Python `s[-2:]`: for `s.reverse = b :: a :: _` the slice `s[-2:]` is
the two-character string `[a, b]`, so `last_two[0] = a`, `last_two[1] = b`,
and `last_two.isalpha()` is `a.isAlpha && b.isAlpha`. -/
def is_valid_location (s : List Char) : Bool :=
  if s = [] then false
  else if beginsWith "FLOOR".toList s || beginsWith "REC".toList s
      || beginsWith "ORD".toList s then false
  else
    match s.reverse with
    | b :: a :: _ => !(a.isAlpha && b.isAlpha && a == b)
    | _ => true

/-- `check_location_availability` from src/app.py lines 89-93.  The
`location` table row for a code is modelled as `Option (Option Nat)`:
`none` means no row (UNKNOWN), `some none` a row with NULL `clientId`
(FREE), `some (some c)` a row occupied by client `c`. -/
def check_location_availability (table : List Char → Option (Option Nat))
    (code : List Char) : OccupancyState :=
  match table code with
  | none => OccupancyState.UNKNOWN
  | some none => OccupancyState.FREE
  | some (some _) => OccupancyState.OCCUPIED

/-- Descending-by-`occurrenceCount` ordered insertion: the new record goes
in front of the first element whose count is less than or equal to its own,
so that among equal counts earlier input elements stay first (the stable
behaviour of Python `list.sort(key=lambda x: -x["count"])`). -/
def insertByCount (r : UsageRecord) : List UsageRecord → List UsageRecord
  | [] => [r]
  | x :: xs =>
    if x.occurrenceCount ≤ r.occurrenceCount then r :: x :: xs
    else x :: insertByCount r xs

/-- Stable sort by `occurrenceCount` descending, embedding
`available.sort(key=lambda x: -x["count"])` of src/app.py line 171. -/
def sortByCountDesc : List UsageRecord → List UsageRecord
  | [] => []
  | x :: xs => insertByCount x (sortByCountDesc xs)

/-- The `available` list built by the loop of src/app.py lines 162-169:
records whose code passes `is_valid_location` and whose occupancy lookup
returns FREE, in input order. -/
def availableLocations (h : PartHistory)
    (occ : List Char → OccupancyState) : List UsageRecord :=
  h.locations.filter fun loc =>
    is_valid_location loc.locationCode
      && (occ loc.locationCode == OccupancyState.FREE)

/-- The three ranking outcomes of `get_recommendation` (src/app.py lines
146-247): `noHistory` (status "no_history", carrying the optional
`primary_zone` hint), `allOccupied` (status "all_occupied", carrying
`qdrant_data.get("primary_zone", "Unknown")`), and `ok` (status "ok",
carrying `best`, `alternatives = available[1:4]` and
`all_available = available`). -/
inductive Recommendation where
  | noHistory (zoneHint : Option (List Char))
  | allOccupied (zone : List Char)
  | ok (primary : UsageRecord) (alternatives : List UsageRecord)
      (allAvailable : List UsageRecord)
deriving DecidableEq, Repr

/-- The ranking portion of `get_recommendation` (src/app.py lines 146-247),
with the database/document-store fetches abstracted into the inputs and the
prompt/text generation dropped: absent history or an empty `all_locations`
list gives the no-history outcome with the `primary_zone` hint; otherwise
the valid FREE survivors are sorted by count descending; an empty survivor
list gives the all-occupied outcome; otherwise the head is the primary and
the next up to three records are the alternatives. -/
def rank (history : Option PartHistory)
    (occ : List Char → OccupancyState) : Recommendation :=
  match history with
  | none => Recommendation.noHistory none
  | some h =>
    if h.locations = [] then Recommendation.noHistory h.primaryZone
    else
      match sortByCountDesc (availableLocations h occ) with
      | [] => Recommendation.allOccupied (h.primaryZone.getD "Unknown".toList)
      | best :: rest => Recommendation.ok best (rest.take 3) (best :: rest)

/-- The primary record of an outcome, if any (`res["recommended"]`). -/
def primaryOf : Recommendation → Option UsageRecord
  | Recommendation.ok best _ _ => some best
  | _ => none

/-- The alternatives of an outcome (`res["alternatives"]`, empty for the
advisory outcomes). -/
def alternativesOf : Recommendation → List UsageRecord
  | Recommendation.ok _ alts _ => alts
  | _ => []

/-- The four phrase branches of src/app.py lines 190-201 (and
`generate_llm_explanation` in warehouse_cli.py): `strongBranch` is
"most preferred location", `mediumPctBranch` "frequently used location",
`mediumCountBranch` "historically used location",
`weakBranch` "available location from historical patterns". -/
inductive PhraseBranch where
  | strongBranch
  | mediumPctBranch
  | mediumCountBranch
  | weakBranch
deriving DecidableEq, Repr

/-- The if/elif chain of src/app.py lines 190-201 selecting a phrase
branch from the primary record's percentage and count. -/
def phraseBranch (pct : ℚ) (count : Nat) : PhraseBranch :=
  if 50 ≤ pct then PhraseBranch.strongBranch
  else if 20 ≤ pct then PhraseBranch.mediumPctBranch
  else if 5 ≤ count then PhraseBranch.mediumCountBranch
  else PhraseBranch.weakBranch

/-- The three confidence tiers of the specification. -/
inductive Strength where
  | STRONG
  | MEDIUM
  | WEAK
deriving DecidableEq, Repr

/-- `classifyStrength`: the tier of each source phrase branch, per the
specification's labelling of the four branches of src/app.py lines 190-201
(both middle branches are the MEDIUM tier). -/
def classifyStrength (pct : ℚ) (count : Nat) : Strength :=
  match phraseBranch pct count with
  | PhraseBranch.strongBranch => Strength.STRONG
  | PhraseBranch.mediumPctBranch => Strength.MEDIUM
  | PhraseBranch.mediumCountBranch => Strength.MEDIUM
  | PhraseBranch.weakBranch => Strength.WEAK

/-- Descending-count order between records: the right one's count does not
exceed the left one's. -/
def occGe (a b : UsageRecord) : Prop :=
  b.occurrenceCount ≤ a.occurrenceCount

/-- Erase the `usagePercentage` field, keeping code and count. -/
def scrubPct (r : UsageRecord) : UsageRecord :=
  ⟨r.locationCode, r.occurrenceCount, 0⟩

/-- Erase every `usagePercentage` in an outcome, keeping the outcome shape,
zone hints, location codes and counts. -/
def scrubRec : Recommendation → Recommendation
  | Recommendation.noHistory z => Recommendation.noHistory z
  | Recommendation.allOccupied z => Recommendation.allOccupied z
  | Recommendation.ok best alts avail =>
      Recommendation.ok (scrubPct best) (alts.map scrubPct) (avail.map scrubPct)

/-! ### Concrete inputs used to evaluate the theorems -/

/-- Scenario A of the specification: record `{TN52D, 15, 28.3}`, with the
percentage rounded to an integer so the kernel can evaluate it. -/
def recTN52D : UsageRecord := ⟨"TN52D".toList, 15, 28⟩

/-- Scenario A record `{SG01J, 8, 15.1}`, percentage rounded. -/
def recSG01J : UsageRecord := ⟨"SG01J".toList, 8, 15⟩

/-- Scenario A record `{TP03D, 3, 5.66}`, percentage rounded. -/
def recTP03D : UsageRecord := ⟨"TP03D".toList, 3, 6⟩

/-- Scenario A record `{TN43D, 1, 1.9}`, percentage rounded. -/
def recTN43D : UsageRecord := ⟨"TN43D".toList, 1, 2⟩

/-- The Scenario A part history of the specification (section 8). -/
def histA : PartHistory :=
  ⟨53, some "T".toList, [recTN52D, recSG01J, recTP03D, recTN43D]⟩

/-- A record with count 3 appearing before an equal-count record. -/
def recA1 : UsageRecord := ⟨"A1".toList, 3, 30⟩

/-- A record with the highest count of `histTie`. -/
def recB2 : UsageRecord := ⟨"B2".toList, 5, 50⟩

/-- A record with count 3 appearing after `recA1`. -/
def recC3 : UsageRecord := ⟨"C3".toList, 3, 20⟩

/-- A history with an `occurrenceCount` tie, exercising the stable
tie-break. -/
def histTie : PartHistory := ⟨10, none, [recA1, recB2, recC3]⟩

/-- Five valid always-free records, to exercise truncation to three
alternatives. -/
def recM1 : UsageRecord := ⟨"M1".toList, 7, 35⟩

/-- Second record of `histMany`. -/
def recM2 : UsageRecord := ⟨"M2".toList, 5, 25⟩

/-- Third record of `histMany`. -/
def recM3 : UsageRecord := ⟨"M3".toList, 4, 20⟩

/-- Fourth record of `histMany`. -/
def recM4 : UsageRecord := ⟨"M4".toList, 2, 10⟩

/-- Fifth record of `histMany`. -/
def recM5 : UsageRecord := ⟨"M5".toList, 2, 10⟩

/-- A history with five valid locations. -/
def histMany : PartHistory := ⟨20, none, [recM1, recM2, recM3, recM4, recM5]⟩

/-- Scenario C of the specification: history whose only location is
`FLOOR1`. -/
def histFloor : PartHistory :=
  ⟨10, some "F".toList, [⟨"FLOOR1".toList, 10, 50⟩]⟩

/-- A history with an empty `locations` list but a zone hint. -/
def histEmpty : PartHistory := ⟨0, some "Z".toList, []⟩

/-- An occupancy oracle reporting every location FREE. -/
def occAllFree : List Char → OccupancyState := fun _ => OccupancyState.FREE

/-- A location table in which every code has a row with NULL `clientId`. -/
def tableAllNull : List Char → Option (Option Nat) := fun _ => some none

/-- The oracle derived from `tableAllNull`; it reports FREE for every
code, like `occAllFree`, but through `check_location_availability`. -/
def occAllFree2 : List Char → OccupancyState :=
  check_location_availability tableAllNull

/-- The Scenario B location table: `SG01J` has a row with NULL `clientId`,
`TN52D` a row occupied by client 7, every other code has no row. -/
def tableB (code : List Char) : Option (Option Nat) :=
  if code = "SG01J".toList then some none
  else if code = "TN52D".toList then some (some 7)
  else none

/-- The Scenario B oracle derived from `tableB`. -/
def occB : List Char → OccupancyState :=
  check_location_availability tableB

/-- An oracle agreeing with `occB` on which codes are FREE but reporting
UNKNOWN wherever `occB` reports a non-FREE state. -/
def occB2 (code : List Char) : OccupancyState :=
  if occB code = OccupancyState.FREE then OccupancyState.FREE
  else OccupancyState.UNKNOWN

/-- Two records identified by code and count. -/
def listP1 : List UsageRecord := [⟨"P1".toList, 7, 35⟩, ⟨"P2".toList, 5, 25⟩]

/-- The same codes and counts as `listP1` with different percentages. -/
def listP2 : List UsageRecord := [⟨"P1".toList, 7, 90⟩, ⟨"P2".toList, 5, 1⟩]

/-! ### Helper lemmas about the stable sort -/

theorem scrubPct_count (r : UsageRecord) :
    (scrubPct r).occurrenceCount = r.occurrenceCount := rfl

theorem perm_insertByCount (r : UsageRecord) (l : List UsageRecord) :
    List.Perm (insertByCount r l) (r :: l) := by
  induction l with
  | nil => exact List.Perm.refl _
  | cons x xs ih =>
    unfold insertByCount
    by_cases h : x.occurrenceCount ≤ r.occurrenceCount
    · rw [if_pos h]
    · rw [if_neg h]
      exact (ih.cons x).trans (List.Perm.swap r x xs)

theorem mem_insertByCount {r x : UsageRecord} {l : List UsageRecord}
    (h : x ∈ insertByCount r l) : x = r ∨ x ∈ l := by
  have hm : x ∈ r :: l := (perm_insertByCount r l).subset h
  simpa using hm

theorem pairwise_insertByCount {r : UsageRecord} {l : List UsageRecord}
    (hl : l.Pairwise occGe) : (insertByCount r l).Pairwise occGe := by
  induction l with
  | nil => simp [insertByCount, occGe]
  | cons x xs ih =>
    rcases List.pairwise_cons.mp hl with ⟨hx, hxs⟩
    unfold insertByCount
    by_cases h : x.occurrenceCount ≤ r.occurrenceCount
    · rw [if_pos h]
      refine List.pairwise_cons.mpr ⟨?_, hl⟩
      intro y hy
      rcases List.mem_cons.mp hy with rfl | hy
      · exact h
      · exact le_trans (hx y hy) h
    · rw [if_neg h]
      refine List.pairwise_cons.mpr ⟨?_, ih hxs⟩
      intro y hy
      rcases mem_insertByCount hy with rfl | hy
      · exact le_of_lt (not_le.mp h)
      · exact hx y hy

theorem filter_insertByCount_ne (r : UsageRecord) (l : List UsageRecord) (n : Nat)
    (hr : r.occurrenceCount ≠ n) :
    (insertByCount r l).filter (fun x => x.occurrenceCount == n)
      = l.filter (fun x => x.occurrenceCount == n) := by
  induction l with
  | nil => simp [insertByCount, hr]
  | cons x xs ih =>
    unfold insertByCount
    by_cases h : x.occurrenceCount ≤ r.occurrenceCount
    · rw [if_pos h]
      simp [List.filter_cons, hr]
    · rw [if_neg h]
      simp [List.filter_cons, ih]

theorem filter_insertByCount_eq (r : UsageRecord) (l : List UsageRecord) (n : Nat)
    (hr : r.occurrenceCount = n) (hl : l.Pairwise occGe) :
    (insertByCount r l).filter (fun x => x.occurrenceCount == n)
      = r :: l.filter (fun x => x.occurrenceCount == n) := by
  induction l with
  | nil => simp [insertByCount, hr]
  | cons x xs ih =>
    rcases List.pairwise_cons.mp hl with ⟨hx, hxs⟩
    unfold insertByCount
    by_cases h : x.occurrenceCount ≤ r.occurrenceCount
    · rw [if_pos h]
      simp [List.filter_cons, hr]
    · have hxn : x.occurrenceCount ≠ n :=
        fun e => h (le_of_eq (e.trans hr.symm))
      rw [if_neg h]
      simp [List.filter_cons, hxn, ih hxs]

theorem sortByCountDesc_perm (l : List UsageRecord) :
    List.Perm (sortByCountDesc l) l := by
  induction l with
  | nil => exact List.Perm.refl _
  | cons x xs ih => exact (perm_insertByCount x _).trans (ih.cons x)

theorem sortByCountDesc_pairwise (l : List UsageRecord) :
    (sortByCountDesc l).Pairwise occGe := by
  induction l with
  | nil => simp [sortByCountDesc]
  | cons x xs ih => exact pairwise_insertByCount ih

theorem sortByCountDesc_filter (l : List UsageRecord) (n : Nat) :
    (sortByCountDesc l).filter (fun x => x.occurrenceCount == n)
      = l.filter (fun x => x.occurrenceCount == n) := by
  induction l with
  | nil => rfl
  | cons x xs ih =>
    show (insertByCount x (sortByCountDesc xs)).filter _ = _
    by_cases hx : x.occurrenceCount = n
    · rw [filter_insertByCount_eq x _ n hx (sortByCountDesc_pairwise xs), ih,
        List.filter_cons]
      simp [hx]
    · rw [filter_insertByCount_ne x _ n hx, ih, List.filter_cons]
      simp [hx]

theorem insertByCount_map_scrub (r : UsageRecord) (l : List UsageRecord) :
    insertByCount (scrubPct r) (l.map scrubPct)
      = (insertByCount r l).map scrubPct := by
  induction l with
  | nil => rfl
  | cons x xs ih =>
    simp only [List.map_cons, insertByCount, scrubPct_count]
    by_cases h : x.occurrenceCount ≤ r.occurrenceCount
    · simp [h]
    · simp [h, ih]

theorem sortByCountDesc_map_scrub (l : List UsageRecord) :
    sortByCountDesc (l.map scrubPct) = (sortByCountDesc l).map scrubPct := by
  induction l with
  | nil => rfl
  | cons x xs ih =>
    show insertByCount (scrubPct x) (sortByCountDesc (xs.map scrubPct)) = _
    rw [ih]
    exact insertByCount_map_scrub x (sortByCountDesc xs)

theorem map_scrub_filter (p : UsageRecord → Bool)
    (hp : ∀ r, p (scrubPct r) = p r) (l : List UsageRecord) :
    (l.filter p).map scrubPct = (l.map scrubPct).filter p := by
  induction l with
  | nil => rfl
  | cons x xs ih =>
    simp only [List.map_cons, List.filter_cons, hp]
    by_cases hx : p x = true
    · simp [hx, ih]
    · simp [hx, ih]

theorem primaryOf_scrubRec (r : Recommendation) :
    primaryOf (scrubRec r) = (primaryOf r).map scrubPct := by
  cases r <;> rfl

theorem alternativesOf_scrubRec (r : Recommendation) :
    alternativesOf (scrubRec r) = (alternativesOf r).map scrubPct := by
  cases r <;> rfl

/-! ### Helper lemmas about `rank` and `is_valid_location` -/

theorem rank_ok_inv {h : PartHistory} {occ : List Char → OccupancyState}
    {best : UsageRecord} {alts avail : List UsageRecord}
    (e : rank (some h) occ = Recommendation.ok best alts avail) :
    ∃ rest, sortByCountDesc (availableLocations h occ) = best :: rest ∧
      alts = rest.take 3 ∧ avail = best :: rest := by
  by_cases hl : h.locations = []
  · simp [rank, hl] at e
  · simp only [rank, if_neg hl] at e
    cases hs : sortByCountDesc (availableLocations h occ) with
    | nil =>
      rw [hs] at e
      simp at e
    | cons b rest =>
      rw [hs] at e
      simp only [Recommendation.ok.injEq] at e
      obtain ⟨rfl, rfl, rfl⟩ := e
      exact ⟨rest, rfl, rfl, rfl⟩

theorem beginsWith_iff (p s : List Char) :
    beginsWith p s = true ↔ ∃ t, s = p ++ t := by
  induction p generalizing s with
  | nil => simp [beginsWith]
  | cons a ps ih =>
    cases s with
    | nil => simp [beginsWith]
    | cons b bs =>
      simp only [beginsWith, Bool.and_eq_true, beq_iff_eq, ih, List.cons_append,
        List.cons.injEq]
      constructor
      · rintro ⟨rfl, t, rfl⟩
        exact ⟨t, rfl, rfl⟩
      · rintro ⟨t, rfl, rfl⟩
        exact ⟨rfl, t, rfl⟩

theorem is_valid_location_eq_false_iff (s : List Char) :
    is_valid_location s = false ↔
      s = [] ∨ (∃ t, s = "FLOOR".toList ++ t) ∨ (∃ t, s = "REC".toList ++ t) ∨
        (∃ t, s = "ORD".toList ++ t) ∨
        (∃ t a b, s = t ++ [a, b] ∧ a.isAlpha = true ∧ b.isAlpha = true ∧ a = b) := by
  unfold is_valid_location
  by_cases h0 : s = []
  · simp [h0]
  · rw [if_neg h0]
    by_cases hp : (beginsWith "FLOOR".toList s || beginsWith "REC".toList s
        || beginsWith "ORD".toList s) = true
    · rw [if_pos hp]
      have hpp : ((∃ t, s = "FLOOR".toList ++ t) ∨ (∃ t, s = "REC".toList ++ t)) ∨
          (∃ t, s = "ORD".toList ++ t) := by
        simpa only [Bool.or_eq_true, beginsWith_iff] using hp
      refine iff_of_true rfl ?_
      tauto
    · rw [if_neg hp]
      have hnp : (¬(∃ t, s = "FLOOR".toList ++ t) ∧ ¬(∃ t, s = "REC".toList ++ t)) ∧
          ¬(∃ t, s = "ORD".toList ++ t) := by
        simpa only [Bool.or_eq_true, beginsWith_iff, not_or] using hp
      rcases hrev : s.reverse with _ | ⟨b, tl⟩
      · exact absurd (by rw [← List.reverse_reverse s, hrev]; rfl) h0
      · cases tl with
        | nil =>
          have hs : s = [b] := by
            rw [← List.reverse_reverse s, hrev]
            rfl
          refine iff_of_false (by simp) ?_
          rintro (he | he | he | he | ⟨t, a, c, he, _, _, _⟩)
          · exact h0 he
          · exact hnp.1.1 he
          · exact hnp.1.2 he
          · exact hnp.2 he
          · rw [hs] at he
            have := congrArg List.length he
            simp at this
        | cons a r =>
          have hs : s = r.reverse ++ [a, b] := by
            rw [← List.reverse_reverse s, hrev]
            simp
          show (!(a.isAlpha && b.isAlpha && a == b)) = false ↔ _
          rw [Bool.not_eq_false']
          simp only [Bool.and_eq_true, beq_iff_eq]
          constructor
          · rintro ⟨⟨ha, hb⟩, hab⟩
            exact Or.inr (Or.inr (Or.inr (Or.inr ⟨r.reverse, a, b, hs, ha, hb, hab⟩)))
          · rintro (he | he | he | he | ⟨t, a2, b2, he, ha2, hb2, hab2⟩)
            · exact absurd he h0
            · exact absurd he hnp.1.1
            · exact absurd he hnp.1.2
            · exact absurd he hnp.2
            · rw [hs] at he
              rcases List.append_inj' he (by simp) with ⟨_, h2⟩
              obtain ⟨rfl, rfl⟩ : a = a2 ∧ b = b2 := by simpa using h2
              exact ⟨⟨ha2, hb2⟩, hab2⟩

/-! ### Claim theorems -/

/-- C2: `classifyStrength` is a pure function of the primary record's
`(usagePercentage, occurrenceCount)`: STRONG iff `usagePercentage ≥ 50`;
MEDIUM iff `20 ≤ usagePercentage < 50` or (`usagePercentage < 20` and
`occurrenceCount ≥ 5`) — two distinct rule branches (`mediumPctBranch`,
`mediumCountBranch`) with different phrase templates but the same tier; and
WEAK otherwise (equivalently `usagePercentage < 20` and
`occurrenceCount < 5`). -/
theorem classifyStrength_spec (pct : ℚ) (count : Nat) :
    (classifyStrength pct count = Strength.STRONG ↔ 50 ≤ pct) ∧
    (classifyStrength pct count = Strength.MEDIUM ↔
      ((20 ≤ pct ∧ pct < 50) ∨ (pct < 20 ∧ 5 ≤ count))) ∧
    (classifyStrength pct count = Strength.WEAK ↔ (pct < 20 ∧ count < 5)) ∧
    (phraseBranch pct count = PhraseBranch.mediumPctBranch ↔ (20 ≤ pct ∧ pct < 50)) ∧
    (phraseBranch pct count = PhraseBranch.mediumCountBranch ↔ (pct < 20 ∧ 5 ≤ count)) := by
  by_cases h50 : 50 ≤ pct
  · have hb : phraseBranch pct count = PhraseBranch.strongBranch := by
      unfold phraseBranch
      rw [if_pos h50]
    simp only [classifyStrength, hb]
    refine ⟨iff_of_true trivial h50, ?_, ?_, ?_, ?_⟩
    · refine iff_of_false (by decide) ?_
      rintro (⟨h1, h2⟩ | ⟨h1, h2⟩) <;> linarith
    · refine iff_of_false (by decide) ?_
      rintro ⟨h1, _⟩
      linarith
    · refine iff_of_false (by decide) ?_
      rintro ⟨_, h2⟩
      linarith
    · refine iff_of_false (by decide) ?_
      rintro ⟨h1, _⟩
      linarith
  · have h50l : pct < 50 := not_le.mp h50
    by_cases h20 : 20 ≤ pct
    · have hb : phraseBranch pct count = PhraseBranch.mediumPctBranch := by
        unfold phraseBranch
        rw [if_neg h50, if_pos h20]
      simp only [classifyStrength, hb]
      refine ⟨iff_of_false (by decide) h50, iff_of_true trivial (Or.inl ⟨h20, h50l⟩), ?_,
        iff_of_true trivial ⟨h20, h50l⟩, ?_⟩
      · refine iff_of_false (by decide) ?_
        rintro ⟨h1, _⟩
        linarith
      · refine iff_of_false (by decide) ?_
        rintro ⟨h1, _⟩
        linarith
    · have h20l : pct < 20 := not_le.mp h20
      by_cases h5 : 5 ≤ count
      · have hb : phraseBranch pct count = PhraseBranch.mediumCountBranch := by
          unfold phraseBranch
          rw [if_neg h50, if_neg h20, if_pos h5]
        simp only [classifyStrength, hb]
        refine ⟨iff_of_false (by decide) h50, iff_of_true trivial (Or.inr ⟨h20l, h5⟩), ?_, ?_,
          iff_of_true trivial ⟨h20l, h5⟩⟩
        · refine iff_of_false (by decide) ?_
          rintro ⟨_, h2⟩
          omega
        · refine iff_of_false (by decide) ?_
          rintro ⟨h1, _⟩
          linarith
      · have h5l : count < 5 := not_le.mp h5
        have hb : phraseBranch pct count = PhraseBranch.weakBranch := by
          unfold phraseBranch
          rw [if_neg h50, if_neg h20, if_neg h5]
        simp only [classifyStrength, hb]
        refine ⟨iff_of_false (by decide) h50, ?_, iff_of_true trivial ⟨h20l, h5l⟩, ?_, ?_⟩
        · refine iff_of_false (by decide) ?_
          rintro (⟨h1, _⟩ | ⟨_, h2⟩)
          · linarith
          · omega
        · refine iff_of_false (by decide) ?_
          rintro ⟨h1, _⟩
          linarith
        · refine iff_of_false (by decide) ?_
          rintro ⟨_, h2⟩
          omega

/-- C3: `is_valid_location` returns false exactly on the empty string,
strings starting with `FLOOR`, `REC` or `ORD`, and strings of length at
least two whose last two characters are both alphabetic and identical; it
accepts everything else, including `"A1"` and `"TN52D"`, and rejects
`"SG01AA"`. -/
theorem filterValid_characterisation :
    (∀ s : List Char, is_valid_location s = false ↔
      s = [] ∨ (∃ t, s = "FLOOR".toList ++ t) ∨ (∃ t, s = "REC".toList ++ t) ∨
        (∃ t, s = "ORD".toList ++ t) ∨
        (∃ t a b, s = t ++ [a, b] ∧ a.isAlpha = true ∧ b.isAlpha = true ∧ a = b)) ∧
    is_valid_location "A1".toList = true ∧
    is_valid_location "TN52D".toList = true ∧
    is_valid_location "SG01AA".toList = false :=
  ⟨is_valid_location_eq_false_iff, by decide, by decide, by decide⟩

/-- C1: in every `ok` outcome of `rank`, the `allAvailable` list is a
permutation of the surviving records (those passing `is_valid_location`
with FREE occupancy), ordered by `occurrenceCount` descending with a stable
tie-break: for every count value `n`, the records of count `n` keep their
relative input order; consequently the primary's count dominates every
alternative's and the alternatives are in descending count order. -/
theorem rank_sorted_stable (h : PartHistory) (occ : List Char → OccupancyState)
    (n : Nat) (best : UsageRecord) (alts avail : List UsageRecord)
    (e : rank (some h) occ = Recommendation.ok best alts avail) :
    List.Perm avail (availableLocations h occ) ∧
    avail.filter (fun r => r.occurrenceCount == n)
      = (availableLocations h occ).filter (fun r => r.occurrenceCount == n) ∧
    avail.Pairwise occGe ∧
    (∀ a ∈ alts, a.occurrenceCount ≤ best.occurrenceCount) ∧
    alts.Pairwise occGe := by
  obtain ⟨rest, hs, halts, havail⟩ := rank_ok_inv e
  have hPair : (best :: rest).Pairwise occGe := by
    rw [← hs]
    exact sortByCountDesc_pairwise _
  rcases List.pairwise_cons.mp hPair with ⟨hbest, hrest⟩
  subst halts
  subst havail
  refine ⟨?_, ?_, hPair, ?_, ?_⟩
  · rw [← hs]
    exact sortByCountDesc_perm _
  · rw [← hs]
    exact sortByCountDesc_filter _ n
  · intro a ha
    exact hbest a (List.take_subset 3 rest ha)
  · exact hrest.sublist (List.take_sublist 3 rest)

/-- Witness for C1 at the tie history `histTie` with every location FREE:
the tied count-3 records `recA1`, `recC3` keep their input order behind
`recB2`. -/
theorem rank_sorted_stable_w :
    List.Perm [recB2, recA1, recC3] (availableLocations histTie occAllFree) ∧
    [recB2, recA1, recC3].filter (fun r => r.occurrenceCount == 3)
      = (availableLocations histTie occAllFree).filter
          (fun r => r.occurrenceCount == 3) ∧
    [recB2, recA1, recC3].Pairwise occGe ∧
    (∀ a ∈ [recA1, recC3], a.occurrenceCount ≤ recB2.occurrenceCount) ∧
    [recA1, recC3].Pairwise occGe :=
  rank_sorted_stable histTie occAllFree 3 recB2 [recA1, recC3]
    [recB2, recA1, recC3] (by decide)

/-- C4: whenever some record of the history passes `is_valid_location` and
its occupancy lookup returns FREE, `rank` produces the `ok` outcome, which
carries a (non-absent) primary. -/
theorem rank_success_with_free_valid (h : PartHistory)
    (occ : List Char → OccupancyState)
    (hex : ∃ loc ∈ h.locations, is_valid_location loc.locationCode = true ∧
      occ loc.locationCode = OccupancyState.FREE) :
    ∃ best alts avail, rank (some h) occ = Recommendation.ok best alts avail := by
  obtain ⟨loc, hmem, hval, hfree⟩ := hex
  have hmem2 : loc ∈ availableLocations h occ := by
    unfold availableLocations
    refine List.mem_filter.mpr ⟨hmem, ?_⟩
    simp [hval, hfree]
  have hne : availableLocations h occ ≠ [] := by
    intro hnil
    rw [hnil] at hmem2
    simp at hmem2
  have hl : h.locations ≠ [] := by
    intro hnil
    rw [hnil] at hmem
    simp at hmem
  cases hs : sortByCountDesc (availableLocations h occ) with
  | nil =>
    exfalso
    have hlen := (sortByCountDesc_perm (availableLocations h occ)).length_eq
    rw [hs] at hlen
    exact hne (List.length_eq_zero.mp hlen.symm)
  | cons b rest =>
    refine ⟨b, rest.take 3, b :: rest, ?_⟩
    simp only [rank, if_neg hl]
    rw [hs]

/-- Witness for C4 at Scenario A with every location FREE. -/
theorem rank_success_with_free_valid_w :
    ∃ best alts avail,
      rank (some histA) occAllFree = Recommendation.ok best alts avail :=
  rank_success_with_free_valid histA occAllFree
    ⟨recTN52D, by decide, by decide, rfl⟩

/-- C5: a record whose occupancy lookup is OCCUPIED or UNKNOWN never
appears as primary or among the alternatives — every recommended record's
lookup is FREE — and UNKNOWN is treated identically to OCCUPIED: `rank`
depends on the oracle only through which codes are FREE, so two oracles
agreeing on FREE-ness (however they distribute OCCUPIED and UNKNOWN)
produce identical output. -/
theorem rank_excludes_nonfree :
    (∀ (h : PartHistory) (occ : List Char → OccupancyState)
        (best : UsageRecord) (alts avail : List UsageRecord),
      rank (some h) occ = Recommendation.ok best alts avail →
        occ best.locationCode = OccupancyState.FREE ∧
        ∀ a ∈ alts, occ a.locationCode = OccupancyState.FREE) ∧
    (∀ (hist : Option PartHistory) (occ occ2 : List Char → OccupancyState),
      (∀ c, occ c = OccupancyState.FREE ↔ occ2 c = OccupancyState.FREE) →
      rank hist occ = rank hist occ2) := by
  constructor
  · intro h occ best alts avail e
    obtain ⟨rest, hs, halts, havail⟩ := rank_ok_inv e
    have hmem : ∀ x ∈ best :: rest, occ x.locationCode = OccupancyState.FREE := by
      intro x hx
      rw [← hs] at hx
      have hx2 : x ∈ availableLocations h occ :=
        (sortByCountDesc_perm _).subset hx
      simp only [availableLocations, List.mem_filter, Bool.and_eq_true,
        beq_iff_eq] at hx2
      exact hx2.2.2
    subst halts
    subst havail
    refine ⟨hmem best (List.mem_cons_self _ _), ?_⟩
    intro a ha
    exact hmem a (List.mem_cons_of_mem _ (List.take_subset 3 rest ha))
  · intro hist occ occ2 hiff
    have havail : ∀ h : PartHistory,
        availableLocations h occ = availableLocations h occ2 := by
      intro h
      unfold availableLocations
      apply List.filter_congr
      intro r _
      cases hocc : occ r.locationCode <;> cases hocc2 : occ2 r.locationCode <;>
        first
          | rfl
          | (exfalso
             have hspec := hiff r.locationCode
             rw [hocc, hocc2] at hspec
             simp at hspec)
    cases hist with
    | none => rfl
    | some h => simp only [rank, havail h]

/-- Witness for C5: at Scenario B (TN52D occupied, SG01J free, the rest
unknown) the primary is the FREE `SG01J` with no alternatives, and
swapping OCCUPIED for UNKNOWN in the oracle leaves the output unchanged. -/
theorem rank_excludes_nonfree_w :
    (occB recSG01J.locationCode = OccupancyState.FREE ∧
      ∀ a ∈ ([] : List UsageRecord),
        occB a.locationCode = OccupancyState.FREE) ∧
    rank (some histA) occB = rank (some histA) occB2 :=
  ⟨rank_excludes_nonfree.1 histA occB recSG01J [] [recSG01J] (by decide),
   rank_excludes_nonfree.2 (some histA) occB occB2 (fun c => by
      by_cases hv : occB c = OccupancyState.FREE <;> simp [occB2, hv])⟩

/-- C6: when the history has a non-empty locations list but no record
passes both `is_valid_location` and the FREE occupancy check, `rank`
returns the all-occupied outcome (with the `primary_zone` hint defaulted
to `Unknown`), which is a different constructor from — hence
distinguishable by the caller from — every no-history outcome. -/
theorem rank_all_occupied_distinct (h : PartHistory)
    (occ : List Char → OccupancyState) (hne : h.locations ≠ [])
    (hnone : ∀ loc ∈ h.locations,
      ¬(is_valid_location loc.locationCode = true ∧
        occ loc.locationCode = OccupancyState.FREE)) :
    rank (some h) occ
        = Recommendation.allOccupied (h.primaryZone.getD "Unknown".toList) ∧
    ∀ hint, rank (some h) occ ≠ Recommendation.noHistory hint := by
  have havail : availableLocations h occ = [] := by
    unfold availableLocations
    refine List.filter_eq_nil_iff.mpr ?_
    intro loc hmem hpred
    simp only [Bool.and_eq_true, beq_iff_eq] at hpred
    exact hnone loc hmem ⟨hpred.1, hpred.2⟩
  have he : rank (some h) occ
      = Recommendation.allOccupied (h.primaryZone.getD "Unknown".toList) := by
    simp [rank, hne, havail, sortByCountDesc]
  refine ⟨he, ?_⟩
  intro hint hcontra
  rw [he] at hcontra
  exact Recommendation.noConfusion hcontra

/-- Witness for C6 at Scenario C: the only location `FLOOR1` is filtered
invalid even though the oracle reports it FREE, and the outcome is
all-occupied, not no-history. -/
theorem rank_all_occupied_distinct_w :
    rank (some histFloor) occAllFree
        = Recommendation.allOccupied (histFloor.primaryZone.getD "Unknown".toList) ∧
    ∀ hint, rank (some histFloor) occAllFree ≠ Recommendation.noHistory hint :=
  rank_all_occupied_distinct histFloor occAllFree (by decide) (by decide)

/-- C7: in every `ok` outcome the primary is the head of the sorted
available list and the alternatives are exactly the next entries truncated
to at most 3; in particular the alternatives list never exceeds length 3. -/
theorem rank_head_and_truncation (h : PartHistory)
    (occ : List Char → OccupancyState) (best : UsageRecord)
    (alts avail : List UsageRecord)
    (e : rank (some h) occ = Recommendation.ok best alts avail) :
    avail = sortByCountDesc (availableLocations h occ) ∧
    avail.head? = some best ∧
    alts = avail.tail.take 3 ∧
    alts.length ≤ 3 := by
  obtain ⟨rest, hs, halts, havail⟩ := rank_ok_inv e
  subst halts
  subst havail
  refine ⟨hs.symm, rfl, rfl, ?_⟩
  rw [List.length_take]
  exact min_le_left _ _

/-- Witness for C7 at a history with five available locations: exactly
three alternatives survive the truncation. -/
theorem rank_head_and_truncation_w :
    [recM1, recM2, recM3, recM4, recM5]
        = sortByCountDesc (availableLocations histMany occAllFree) ∧
    [recM1, recM2, recM3, recM4, recM5].head? = some recM1 ∧
    [recM2, recM3, recM4] = [recM1, recM2, recM3, recM4, recM5].tail.take 3 ∧
    [recM2, recM3, recM4].length ≤ 3 :=
  rank_head_and_truncation histMany occAllFree recM1 [recM2, recM3, recM4]
    [recM1, recM2, recM3, recM4, recM5] (by decide)

/-- C8: when the history is absent or its locations list is empty, `rank`
returns the no-history outcome carrying the history's `primaryZone` (if
present) unchanged as the hint, with no primary and empty alternatives. -/
theorem rank_no_history_hint (hist : Option PartHistory)
    (occ : List Char → OccupancyState)
    (hcond : hist = none ∨ ∃ h, hist = some h ∧ h.locations = []) :
    rank hist occ = Recommendation.noHistory (hist.bind PartHistory.primaryZone) ∧
    primaryOf (rank hist occ) = none ∧
    alternativesOf (rank hist occ) = [] := by
  rcases hcond with rfl | ⟨h, rfl, hempty⟩
  · exact ⟨rfl, rfl, rfl⟩
  · have he : rank (some h) occ = Recommendation.noHistory h.primaryZone := by
      simp [rank, hempty]
    exact ⟨he, by rw [he]; rfl, by rw [he]; rfl⟩

/-- Witness for C8 at `histEmpty`: its zone hint `Z` is passed through. -/
theorem rank_no_history_hint_w :
    rank (some histEmpty) occAllFree
        = Recommendation.noHistory ((some histEmpty).bind PartHistory.primaryZone) ∧
    primaryOf (rank (some histEmpty) occAllFree) = none ∧
    alternativesOf (rank (some histEmpty) occAllFree) = [] :=
  rank_no_history_hint (some histEmpty) occAllFree
    (Or.inr ⟨histEmpty, rfl, rfl⟩)

/-- C9: `rank` is deterministic — two invocations with the same history
and an occupancy lookup returning the same state per code yield identical
output. -/
theorem rank_deterministic (hist : Option PartHistory)
    (occ occ2 : List Char → OccupancyState)
    (hsame : ∀ c, occ c = occ2 c) :
    rank hist occ = rank hist occ2 := by
  have he : occ = occ2 := funext hsame
  rw [he]

/-- Witness for C9: the all-FREE oracle and the oracle derived from the
all-NULL location table agree per code, and `rank` on Scenario A gives
identical output for both. -/
theorem rank_deterministic_w :
    rank (some histA) occAllFree = rank (some histA) occAllFree2 :=
  rank_deterministic (some histA) occAllFree occAllFree2 (fun _ => rfl)

/-- C10: the selection and ordering of recommended codes is independent of
`usagePercentage`: for histories equal after erasing percentages (same
codes, counts, order) and the same oracle, the outcomes are equal after
erasing percentages; in particular the primary code and the alternatives'
codes (in order) coincide. -/
theorem rank_percentage_independent (t : Nat) (z : Option (List Char))
    (l1 l2 : List UsageRecord) (occ : List Char → OccupancyState)
    (hsig : l1.map scrubPct = l2.map scrubPct) :
    scrubRec (rank (some ⟨t, z, l1⟩) occ) = scrubRec (rank (some ⟨t, z, l2⟩) occ) ∧
    (primaryOf (rank (some ⟨t, z, l1⟩) occ)).map UsageRecord.locationCode
      = (primaryOf (rank (some ⟨t, z, l2⟩) occ)).map UsageRecord.locationCode ∧
    (alternativesOf (rank (some ⟨t, z, l1⟩) occ)).map UsageRecord.locationCode
      = (alternativesOf (rank (some ⟨t, z, l2⟩) occ)).map UsageRecord.locationCode := by
  have hmain : scrubRec (rank (some ⟨t, z, l1⟩) occ)
      = scrubRec (rank (some ⟨t, z, l2⟩) occ) := by
    have hpred : ∀ r : UsageRecord,
        (is_valid_location (scrubPct r).locationCode
          && (occ (scrubPct r).locationCode == OccupancyState.FREE))
        = (is_valid_location r.locationCode
          && (occ r.locationCode == OccupancyState.FREE)) := fun r => rfl
    have havail : (availableLocations ⟨t, z, l1⟩ occ).map scrubPct
        = (availableLocations ⟨t, z, l2⟩ occ).map scrubPct := by
      unfold availableLocations
      rw [map_scrub_filter _ hpred l1, map_scrub_filter _ hpred l2, hsig]
    have hsort : (sortByCountDesc (availableLocations ⟨t, z, l1⟩ occ)).map scrubPct
        = (sortByCountDesc (availableLocations ⟨t, z, l2⟩ occ)).map scrubPct := by
      rw [← sortByCountDesc_map_scrub, ← sortByCountDesc_map_scrub, havail]
    by_cases h1 : l1 = []
    · have h2 : l2 = [] := by
        have := hsig
        rw [h1] at this
        exact List.map_eq_nil_iff.mp this.symm
      simp [rank, h1, h2]
    · have h2 : l2 ≠ [] := by
        intro h2e
        rw [h2e] at hsig
        exact h1 (List.map_eq_nil_iff.mp hsig)
      cases hs1 : sortByCountDesc (availableLocations ⟨t, z, l1⟩ occ) with
      | nil =>
        have hs2 : sortByCountDesc (availableLocations ⟨t, z, l2⟩ occ) = [] := by
          have := hsort
          rw [hs1] at this
          exact List.map_eq_nil_iff.mp this.symm
        rw [show rank (some ⟨t, z, l1⟩) occ
              = Recommendation.allOccupied (z.getD "Unknown".toList) from by
                simp [rank, h1, hs1],
            show rank (some ⟨t, z, l2⟩) occ
              = Recommendation.allOccupied (z.getD "Unknown".toList) from by
                simp [rank, h2, hs2]]
      | cons b1 r1 =>
        cases hs2 : sortByCountDesc (availableLocations ⟨t, z, l2⟩ occ) with
        | nil =>
          exfalso
          rw [hs1, hs2] at hsort
          simp at hsort
        | cons b2 r2 =>
          rw [hs1, hs2] at hsort
          simp only [List.map_cons, List.cons.injEq] at hsort
          obtain ⟨hb, hr⟩ := hsort
          rw [show rank (some ⟨t, z, l1⟩) occ
                = Recommendation.ok b1 (r1.take 3) (b1 :: r1) from by
                  simp [rank, h1, hs1],
              show rank (some ⟨t, z, l2⟩) occ
                = Recommendation.ok b2 (r2.take 3) (b2 :: r2) from by
                  simp [rank, h2, hs2]]
          simp only [scrubRec, Recommendation.ok.injEq]
          refine ⟨hb, ?_, ?_⟩
          · rw [List.map_take, List.map_take, hr]
          · simp only [List.map_cons, hb, hr]
  have hpcode : ∀ x : Option UsageRecord,
      (x.map scrubPct).map UsageRecord.locationCode
        = x.map UsageRecord.locationCode := by
    intro x
    cases x <;> rfl
  have hlcode : ∀ xs : List UsageRecord,
      (xs.map scrubPct).map UsageRecord.locationCode
        = xs.map UsageRecord.locationCode := by
    intro xs
    rw [List.map_map]
    rfl
  have hp := congrArg primaryOf hmain
  rw [primaryOf_scrubRec, primaryOf_scrubRec] at hp
  have ha := congrArg alternativesOf hmain
  rw [alternativesOf_scrubRec, alternativesOf_scrubRec] at ha
  refine ⟨hmain, ?_, ?_⟩
  · have h2 := congrArg (Option.map UsageRecord.locationCode) hp
    rw [hpcode, hpcode] at h2
    exact h2
  · have h3 := congrArg (List.map UsageRecord.locationCode) ha
    rw [hlcode, hlcode] at h3
    exact h3

/-- Witness for C10: `listP1` and `listP2` share codes, counts and order
but differ in every percentage; the scrubbed outcomes and the recommended
codes coincide. -/
theorem rank_percentage_independent_w :
    scrubRec (rank (some ⟨20, none, listP1⟩) occAllFree)
        = scrubRec (rank (some ⟨20, none, listP2⟩) occAllFree) ∧
    (primaryOf (rank (some ⟨20, none, listP1⟩) occAllFree)).map UsageRecord.locationCode
      = (primaryOf (rank (some ⟨20, none, listP2⟩) occAllFree)).map UsageRecord.locationCode ∧
    (alternativesOf (rank (some ⟨20, none, listP1⟩) occAllFree)).map UsageRecord.locationCode
      = (alternativesOf (rank (some ⟨20, none, listP2⟩) occAllFree)).map UsageRecord.locationCode :=
  rank_percentage_independent 20 none listP1 listP2 occAllFree (by decide)

end StockRight
